import Mathlib

/-!
Verification of the `isoperiod` Go package (ISO 8601 repeating periods).

This file gives a shallow embedding of `parse.go`:

* The package-level regular expression
  `(R)?(\d+)?/?P(\d+Y)?(\d+M)?(\d+D)?(T)?(\d+H)?(\d+M)?(\d+S)?`
  is embedded as the deterministic matcher `matchAt`/`find` below.
  Go's `regexp.FindStringSubmatch` returns the leftmost-first match.  For
  this particular pattern a greedy matcher without backtracking coincides
  with leftmost-first semantics: every `\d+` sub-pattern is followed by a
  non-digit literal, so taking the maximal digit run is the only way a
  group can participate, and each optional literal group (`R`, `/`, `T`)
  is followed only by atoms that cannot also consume that literal's
  character, so consuming it when present is again the only possibility.
  `find` scans candidate starting offsets left to right, exactly like the
  engine does.

* Go `int` and `time.Duration` are 64-bit integers.  They are embedded as
  unbounded `Int` with explicit wrap-around (`wrap64`) applied at every
  duration multiplication/addition, mirroring two's-complement overflow.
  Durations are in nanoseconds, as in Go (`time.Hour = 3600e9 ns`).

* `time.Time` is a host collaborator; it is embedded as the free term
  algebra `GoTime` whose constructors are the zero value and the two
  operations (`AddDate`, `Add`) the package uses.

* Fallible Go code returning `(*Period, error)` is embedded as
  `Except PError Period`; every Go `return nil, err` becomes
  `Except.error`, so an error result structurally carries no period.
-/

/-- ASCII digit test; the regex class `\d` of Go's regexp (no Unicode flag
on this pattern) matches exactly the bytes `0`-`9`. -/
def isDig (c : Char) : Bool :=
  decide (48 ≤ c.toNat) && decide (c.toNat ≤ 57)

/-- Numeric value of a base-10 digit string (most significant first),
as computed by `strconv.Atoi` on an all-digit string. -/
def digitsVal (l : List Char) : Nat :=
  l.foldl (fun a c => 10 * a + (c.toNat - 48)) 0

/-- The decimal digit character for `r` (used for `r < 10`). -/
def digitChar (r : Nat) : Char :=
  match r with
  | 0 => '0'
  | 1 => '1'
  | 2 => '2'
  | 3 => '3'
  | 4 => '4'
  | 5 => '5'
  | 6 => '6'
  | 7 => '7'
  | 8 => '8'
  | _ => '9'

/-- Decimal digits of `n`, most significant first; fuel-driven so that the
definition is structurally recursive (the fuel `n + 1` always suffices). -/
def natToDigitsAux : Nat → Nat → List Char
  | 0, _ => []
  | f + 1, n =>
    if n < 10 then [digitChar n]
    else natToDigitsAux f (n / 10) ++ [digitChar (n % 10)]

/-- Decimal digits of `n`, most significant first. -/
def natToDigits (n : Nat) : List Char :=
  natToDigitsAux (n + 1) n

/-- Embedding of `strconv.Itoa` (only ever applied to positive values by
the formatter). -/
def intItoa (i : Int) : String :=
  if i < 0 then "-" ++ String.mk (natToDigits (-i).toNat)
  else String.mk (natToDigits i.toNat)

/-- Two's-complement wrap-around of 64-bit signed integer arithmetic. -/
def wrap64 (n : Int) : Int :=
  (n + 9223372036854775808) % 18446744073709551616 - 9223372036854775808

/-- 64-bit addition, as performed on Go `time.Duration` values. -/
def i64add (a b : Int) : Int := wrap64 (a + b)

/-- 64-bit multiplication, as performed on Go `time.Duration` values. -/
def i64mul (a b : Int) : Int := wrap64 (a * b)

/-- `time.Hour` in nanoseconds. -/
def nsPerHour : Int := 3600000000000

/-- `time.Minute` in nanoseconds. -/
def nsPerMinute : Int := 60000000000

/-- `time.Second` in nanoseconds. -/
def nsPerSecond : Int := 1000000000

/-- Largest 64-bit signed integer; `strconv.Atoi` fails with `ErrRange`
above it. -/
def MaxInt64 : Int := 9223372036854775807

/-- The error surface of `Parse`: `errors.New("invalid repeat format")`,
or a `strconv` numeric-conversion error carrying the offending numeral. -/
inductive PError where
  | invalidFormat
  | numError (s : List Char)
deriving DecidableEq

/-- Embedding of `strconv.Atoi`, restricted to the argument shapes that
occur in `Parse`: the regex only ever hands it non-empty all-digit
strings, for which `Atoi` returns the decimal value, or `ErrRange` when
the value exceeds `MaxInt64` (Go `int` is 64-bit). -/
def atoi (l : List Char) : Except PError Int :=
  if l ≠ [] ∧ l.all isDig then
    if (digitsVal l : Int) ≤ MaxInt64 then Except.ok (digitsVal l : Int)
    else Except.error (PError.numError l)
  else Except.error (PError.numError l)

/-- Embedding of `time.Time`: the free algebra over the zero value
`time.Time{}` and the two host operations the package calls. -/
inductive GoTime where
  | zero
  | addDate (t : GoTime) (years months days : Int)
  | add (t : GoTime) (d : Int)
deriving DecidableEq

/-- The `Period` struct.  `time` is the cached sub-day `time.Duration`
(nanoseconds); `running` is the transient stream flag.  The `done`
channel has no value-level content and is omitted. -/
structure Period where
  Repetitions : Int
  Year : Int
  Month : Int
  Day : Int
  Hour : Int
  Minute : Int
  Second : Int
  time : Int
  running : Bool
deriving DecidableEq

/-- The nine capture groups of the compiled pattern, as returned in
`matches[1]` … `matches[9]` (`[]` encodes a non-participating group,
like Go's `""`). -/
structure Groups where
  g1 : List Char
  g2 : List Char
  g3 : List Char
  g4 : List Char
  g5 : List Char
  g6 : List Char
  g7 : List Char
  g8 : List Char
  g9 : List Char
deriving DecidableEq

/-- Matcher for an optional literal character (`(R)?`, `/?`, `(T)?`):
consume it when present. -/
def optC (c : Char) (l : List Char) : List Char × List Char :=
  match l with
  | x :: xs => if x = c then ([c], xs) else ([], l)
  | [] => ([], [])

/-- Matcher for an optional `\d+U` group (`(\d+Y)?` etc.): a maximal
non-empty digit run immediately followed by the unit letter, else the
group does not participate. -/
def numUnit (u : Char) (l : List Char) : List Char × List Char :=
  if (l.takeWhile isDig ≠ [] ∧ (l.dropWhile isDig).head? = some u)
  then (l.takeWhile isDig ++ [u], (l.dropWhile isDig).tail)
  else ([], l)

/-- Run the whole pattern anchored at the current offset. -/
def matchAt (l : List Char) : Option Groups :=
  let r1 := optC 'R' l
  let g2 := r1.2.takeWhile isDig
  let l2 := r1.2.dropWhile isDig
  let r3 := optC '/' l2
  match r3.2 with
  | 'P' :: l4 =>
    let rY := numUnit 'Y' l4
    let rM := numUnit 'M' rY.2
    let rD := numUnit 'D' rM.2
    let rT := optC 'T' rD.2
    let rH := numUnit 'H' rT.2
    let rMi := numUnit 'M' rH.2
    let rS := numUnit 'S' rMi.2
    some ⟨r1.1, g2, rY.1, rM.1, rD.1, rT.1, rH.1, rMi.1, rS.1⟩
  | _ => none

/-- `FindStringSubmatch`: try each starting offset from the left; the
pattern at the end-of-string offset never matches (it needs a `P`). -/
def find : List Char → Option Groups
  | [] => none
  | c :: t =>
    match matchAt (c :: t) with
    | some g => some g
    | none => find t

/-- The repetition-prefix logic of `Parse`: `matches[1] == "R"` sets
`-1`, then a non-empty `matches[2]` overrides it with `Atoi`. -/
def parseRep (m : Groups) : Except PError Int :=
  if m.g1 = ['R'] then
    if m.g2 ≠ [] then atoi m.g2 else Except.ok (-1)
  else Except.ok 0

/-- One numeric component of `Parse`: a participating group
`matches[i]` is converted by `Atoi(matches[i][:len(matches[i])-1])`,
an absent group leaves the zero value. -/
def parseField (g : List Char) : Except PError Int :=
  if g ≠ [] then atoi g.dropLast else Except.ok 0

/-- The accumulation of `result.time += …` performed for each clock
group that participates. -/
def timeChain (m : Groups) (hour minute second : Int) : Int :=
  let t1 := if m.g7 ≠ [] then i64add 0 (i64mul hour nsPerHour) else 0
  let t2 := if m.g8 ≠ [] then i64add t1 (i64mul minute nsPerMinute) else t1
  if m.g9 ≠ [] then i64add t2 (i64mul second nsPerSecond) else t2

/-- Embedding of `Parse`.  Each Go `return nil, err` is an
`Except.error`; the success path builds the period exactly as the Go
code leaves `result`. -/
def Parse (s : String) : Except PError Period :=
  match find s.data with
  | none => Except.error PError.invalidFormat
  | some m =>
    match parseRep m with
    | Except.error e => Except.error e
    | Except.ok reps =>
    match parseField m.g3 with
    | Except.error e => Except.error e
    | Except.ok year =>
    match parseField m.g4 with
    | Except.error e => Except.error e
    | Except.ok month =>
    match parseField m.g5 with
    | Except.error e => Except.error e
    | Except.ok day =>
    match parseField m.g7 with
    | Except.error e => Except.error e
    | Except.ok hour =>
    match parseField m.g8 with
    | Except.error e => Except.error e
    | Except.ok minute =>
    match parseField m.g9 with
    | Except.error e => Except.error e
    | Except.ok second =>
      Except.ok
        { Repetitions := reps, Year := year, Month := month, Day := day,
          Hour := hour, Minute := minute, Second := second,
          time := timeChain m hour minute second, running := false }

/-- Embedding of `New`.  The `now` argument is accepted and unused,
exactly as in the Go source. -/
def New (now : GoTime) (repetitions year month day hour minute second : Int) :
    Period :=
  { Repetitions := repetitions, Year := year, Month := month, Day := day,
    Hour := hour, Minute := minute, Second := second,
    time := i64add (i64add (i64mul hour nsPerHour) (i64mul minute nsPerMinute))
      (i64mul second nsPerSecond),
    running := false }

/-- Embedding of `(*Period).Next`: the zero time for zero repetitions,
otherwise `now.AddDate(year, month, day).Add(h + m + s)`. -/
def Next (r : Period) (now : GoTime) : GoTime :=
  if r.Repetitions = 0 then GoTime.zero
  else
    GoTime.add (GoTime.addDate now r.Year r.Month r.Day)
      (i64add (i64add (i64mul r.Hour nsPerHour) (i64mul r.Minute nsPerMinute))
        (i64mul r.Second nsPerSecond))

/-- Embedding of `(*Period).String`.  The Go locals `result`,
`timeAdded`, `tAdded` are threaded through `let`s; after the hour block
`tAdded` is exactly `0 < Hour`, after the minute block it is
`0 < Hour ∨ 0 < Minute`, and the final `timeAdded` is the disjunction of
all six component tests, each of which sets it. -/
def Period.toStr (r : Period) : String :=
  let s1 :=
    if r.Repetitions = 0 then "R/"
    else if 0 < r.Repetitions then "R" ++ intItoa r.Repetitions ++ "/"
    else ""
  let s2 := s1 ++ "P"
  let s3 := if 0 < r.Year then s2 ++ intItoa r.Year ++ "Y" else s2
  let s4 := if 0 < r.Month then s3 ++ intItoa r.Month ++ "M" else s3
  let s5 := if 0 < r.Day then s4 ++ intItoa r.Day ++ "D" else s4
  let s6 := if 0 < r.Hour then s5 ++ "T" ++ intItoa r.Hour ++ "H" else s5
  let s7 :=
    if 0 < r.Minute then
      (if ¬ 0 < r.Hour then s6 ++ "T" else s6) ++ intItoa r.Minute ++ "M"
    else s6
  let s8 :=
    if 0 < r.Second then
      (if ¬ (0 < r.Hour ∨ 0 < r.Minute) then s7 ++ "T" else s7)
        ++ intItoa r.Second ++ "S"
    else s7
  if ¬ (0 < r.Year ∨ 0 < r.Month ∨ 0 < r.Day ∨ 0 < r.Hour ∨ 0 < r.Minute ∨
      0 < r.Second) then
    s8 ++ "T0S"
  else s8

/-- Environment events seen by the goroutine spawned by `Start`: a ticker
fire (with the non-deterministic fact of whether a consumer is currently
receiving on the unbuffered `sender` channel, which decides the
non-blocking `select { case sender <- t: default: }`), or a value
arriving on the `done` channel. -/
inductive StreamEv where
  | tick (consumerReady : Bool)
  | done
deriving DecidableEq

/-- State owned by the goroutine of `Start`: the countdown copy `amount`
of `Repetitions`, the number of values successfully delivered on
`sender`, the period's transient `running` flag, and whether the
goroutine has returned (running its defers, which close `sender`). -/
structure StreamState where
  amount : Int
  emitted : Nat
  running : Bool
  closed : Bool
deriving DecidableEq

/-- `Start`: the goroutine sets `running := true` and captures
`amount := r.Repetitions`. -/
def streamStart (reps : Int) : StreamState :=
  { amount := reps, emitted := 0, running := true, closed := false }

/-- One iteration of the goroutine's `for`/`select` loop.  A closed
(returned) stream absorbs events.  On a tick: best-effort emission, then
`if amount > 0 { amount-- }`, then `if amount == 0 { return }` (the
defers set `running = false` and close `sender`); a `done` value makes
the loop return the same way. -/
def streamStep (st : StreamState) (ev : StreamEv) : StreamState :=
  if st.closed then st
  else
    match ev with
    | StreamEv.tick ready =>
      let em1 := st.emitted + (if ready then 1 else 0)
      let am1 := if 0 < st.amount then st.amount - 1 else st.amount
      if am1 = 0 then
        { amount := am1, emitted := em1, running := false, closed := true }
      else
        { amount := am1, emitted := em1, running := st.running, closed := st.closed }
    | StreamEv.done =>
      { amount := st.amount, emitted := st.emitted, running := false, closed := true }

/-- The goroutine processing a whole sequence of environment events. -/
def runStream : StreamState → List StreamEv → StreamState
  | st, [] => st
  | st, e :: es => runStream (streamStep st e) es

/-- What a call to `Stop` does. -/
inductive StopEff where
  | noop
  | signalDone
deriving DecidableEq

/-- Embedding of `(*Period).Stop`: it returns immediately when the
`running` flag is false, otherwise it sends on the `done` channel. -/
def stopCall (running : Bool) : StopEff :=
  if running = false then StopEff.noop else StopEff.signalDone

/-- Modelled from the spec (§4.2), for the refinement claim about the
formatter: the canonical-text rules stated in the specification, applied
in the spec's order. -/
def specFormat (p : Period) : String :=
  (if p.Repetitions = 0 then "R/"
   else if 0 < p.Repetitions then "R" ++ intItoa p.Repetitions ++ "/"
   else "")
  ++ "P"
  ++ (if 0 < p.Year then intItoa p.Year ++ "Y" else "")
  ++ (if 0 < p.Month then intItoa p.Month ++ "M" else "")
  ++ (if 0 < p.Day then intItoa p.Day ++ "D" else "")
  ++ (if 0 < p.Hour ∨ 0 < p.Minute ∨ 0 < p.Second then
        "T" ++ (if 0 < p.Hour then intItoa p.Hour ++ "H" else "")
          ++ (if 0 < p.Minute then intItoa p.Minute ++ "M" else "")
          ++ (if 0 < p.Second then intItoa p.Second ++ "S" else "")
      else "")
  ++ (if ¬ (0 < p.Year ∨ 0 < p.Month ∨ 0 < p.Day ∨ 0 < p.Hour ∨
        0 < p.Minute ∨ 0 < p.Second) then "T0S" else "")

/-- The text a strictly positive component `v` contributes (`<v>U`), and
`[]` for a non-positive one. -/
def calSeg (v : Int) (u : Char) : List Char :=
  if 0 < v then natToDigits v.toNat ++ [u] else []

/-- Character-level normal form of the formatter output, used to relate
the matcher to the formatter. -/
def canonChars (p : Period) : List Char :=
  (if p.Repetitions = 0 then ['R', '/']
   else if 0 < p.Repetitions then 'R' :: (natToDigits p.Repetitions.toNat ++ ['/'])
   else [])
  ++ 'P' ::
    (calSeg p.Year 'Y' ++ calSeg p.Month 'M' ++ calSeg p.Day 'D'
     ++ (if 0 < p.Hour ∨ 0 < p.Minute ∨ 0 < p.Second then
           'T' :: (calSeg p.Hour 'H' ++ calSeg p.Minute 'M' ++ calSeg p.Second 'S')
         else [])
     ++ (if ¬ (0 < p.Year ∨ 0 < p.Month ∨ 0 < p.Day ∨ 0 < p.Hour ∨
           0 < p.Minute ∨ 0 < p.Second) then ['T', '0', 'S'] else []))

/-! ### Arithmetic and digit-string lemmas -/

theorem digitChar_isDig {r : Nat} (h : r < 10) : isDig (digitChar r) = true := by
  interval_cases r <;> decide

theorem digitChar_val {r : Nat} (h : r < 10) : (digitChar r).toNat - 48 = r := by
  interval_cases r <;> decide

theorem digitsVal_concat (l : List Char) (c : Char) :
    digitsVal (l ++ [c]) = 10 * digitsVal l + (c.toNat - 48) := by
  simp [digitsVal, List.foldl_append]

theorem natToDigitsAux_val : ∀ fuel n, n < fuel →
    digitsVal (natToDigitsAux fuel n) = n := by
  intro fuel
  induction fuel with
  | zero => intro n h; omega
  | succ f ih =>
    intro n h
    by_cases h10 : n < 10
    · simp only [natToDigitsAux, if_pos h10]
      simpa [digitsVal] using digitChar_val h10
    · simp only [natToDigitsAux, if_neg h10]
      have hd : n / 10 < f := by
        have := Nat.div_lt_self (by omega : 0 < n) (by omega : 1 < 10)
        omega
      rw [digitsVal_concat, ih _ hd, digitChar_val (Nat.mod_lt _ (by omega))]
      omega

theorem natToDigits_val (n : Nat) : digitsVal (natToDigits n) = n :=
  natToDigitsAux_val (n + 1) n (Nat.lt_succ_self n)

theorem natToDigitsAux_mem_isDig : ∀ fuel n c, c ∈ natToDigitsAux fuel n →
    isDig c = true := by
  intro fuel
  induction fuel with
  | zero => intro n c h; simp [natToDigitsAux] at h
  | succ f ih =>
    intro n c h
    by_cases h10 : n < 10
    · simp only [natToDigitsAux, if_pos h10, List.mem_singleton] at h
      exact h ▸ digitChar_isDig h10
    · simp only [natToDigitsAux, if_neg h10, List.mem_append,
        List.mem_singleton] at h
      rcases h with h | h
      · exact ih _ _ h
      · exact h ▸ digitChar_isDig (Nat.mod_lt _ (by omega))

theorem natToDigits_mem_isDig {n : Nat} {c : Char} (h : c ∈ natToDigits n) :
    isDig c = true :=
  natToDigitsAux_mem_isDig (n + 1) n c h

theorem natToDigits_ne_nil (n : Nat) : natToDigits n ≠ [] := by
  unfold natToDigits natToDigitsAux
  by_cases h10 : n < 10 <;> simp [h10]

theorem natToDigits_all (n : Nat) : (natToDigits n).all isDig = true := by
  rw [List.all_eq_true]
  intro c hc
  exact natToDigits_mem_isDig hc

theorem wrap64_eq_self {n : Int} (h1 : -9223372036854775808 ≤ n)
    (h2 : n < 9223372036854775808) : wrap64 n = n := by
  unfold wrap64; omega

theorem wrap64_lb (n : Int) : -9223372036854775808 ≤ wrap64 n := by
  unfold wrap64; omega

theorem wrap64_ub (n : Int) : wrap64 n < 9223372036854775808 := by
  unfold wrap64; omega

/-- The three-term duration sum computes exactly when the mathematical
value fits in a 64-bit duration. -/
theorem i64_clock_sum {h mi s : Int} (hh : 0 ≤ h) (hmi : 0 ≤ mi) (hs : 0 ≤ s)
    (hb : h * nsPerHour + mi * nsPerMinute + s * nsPerSecond <
      9223372036854775808) :
    i64add (i64add (i64mul h nsPerHour) (i64mul mi nsPerMinute))
        (i64mul s nsPerSecond)
      = h * nsPerHour + mi * nsPerMinute + s * nsPerSecond := by
  unfold i64add i64mul wrap64 nsPerHour nsPerMinute nsPerSecond at *
  omega

/-! ### List-scanning lemmas for the matcher -/

/-- The first element of `l`, when any, fails the predicate. -/
def headFails (p : α → Bool) (l : List α) : Prop :=
  ∀ a, l.head? = some a → p a = false

theorem headFails_nil (p : α → Bool) : headFails p ([] : List α) := by
  intro a h; simp at h

theorem headFails_cons {p : α → Bool} {c : α} (h : p c = false) (t : List α) :
    headFails p (c :: t) := by
  intro a ha; simp at ha; exact ha ▸ h

theorem takeWhile_append_of {p : α → Bool} :
    ∀ {ds rest : List α}, (∀ a ∈ ds, p a = true) → headFails p rest →
      (ds ++ rest).takeWhile p = ds := by
  intro ds
  induction ds with
  | nil =>
    intro rest _ h2
    cases rest with
    | nil => rfl
    | cons a t => simp [List.takeWhile, h2 a rfl]
  | cons d ds ih =>
    intro rest h1 h2
    simp only [List.cons_append, List.takeWhile,
      h1 d (List.mem_cons_self d ds), List.cons.injEq, true_and]
    exact ih (fun a ha => h1 a (List.mem_cons_of_mem d ha)) h2

theorem dropWhile_append_of {p : α → Bool} :
    ∀ {ds rest : List α}, (∀ a ∈ ds, p a = true) → headFails p rest →
      (ds ++ rest).dropWhile p = rest := by
  intro ds
  induction ds with
  | nil =>
    intro rest _ h2
    cases rest with
    | nil => rfl
    | cons a t => simp [List.dropWhile, h2 a rfl]
  | cons d ds ih =>
    intro rest h1 h2
    simp only [List.cons_append, List.dropWhile,
      h1 d (List.mem_cons_self d ds)]
    exact ih (fun a ha => h1 a (List.mem_cons_of_mem d ha)) h2

theorem mem_of_mem_dropWhile {p : α → Bool} :
    ∀ {l : List α} {a : α}, a ∈ l.dropWhile p → a ∈ l := by
  intro l
  induction l with
  | nil => intro a h; simp [List.dropWhile] at h
  | cons c t ih =>
    intro a h
    cases hc : p c <;> simp only [List.dropWhile, hc] at h
    · exact h
    · exact List.mem_cons_of_mem c (ih h)

theorem mem_of_mem_takeWhile {p : α → Bool} :
    ∀ {l : List α} {a : α}, a ∈ l.takeWhile p → a ∈ l := by
  intro l
  induction l with
  | nil => intro a h; simp [List.takeWhile] at h
  | cons c t ih =>
    intro a h
    cases hc : p c <;> simp only [List.takeWhile, hc] at h
    · simp at h
    · rcases List.mem_cons.mp h with h | h
      · exact h ▸ List.mem_cons_self c t
      · exact List.mem_cons_of_mem c (ih h)

theorem takeWhile_mem_true {p : α → Bool} :
    ∀ {l : List α} {a : α}, a ∈ l.takeWhile p → p a = true := by
  intro l
  induction l with
  | nil => intro a h; simp [List.takeWhile] at h
  | cons c t ih =>
    intro a h
    cases hc : p c <;> simp only [List.takeWhile, hc] at h
    · simp at h
    · rcases List.mem_cons.mp h with h | h
      · exact h ▸ hc
      · exact ih h

theorem dropLast_append_single (l : List α) (a : α) :
    (l ++ [a]).dropLast = l := by
  induction l with
  | nil => rfl
  | cons x xs ih =>
    rw [List.cons_append, List.dropLast_cons_of_ne_nil (by simp), ih]

/-! ### Matcher-step lemmas -/

theorem optC_hit (c : Char) (l : List Char) : optC c (c :: l) = ([c], l) := by
  simp [optC]

theorem optC_miss {x c : Char} (h : x ≠ c) (l : List Char) :
    optC c (x :: l) = ([], x :: l) := by
  simp [optC, h]

theorem optC_nil (c : Char) : optC c [] = ([], []) := rfl

/-- The group `(\d+U)?` cannot participate on `l`: no leading digit run,
or the run is not followed by the unit `u`. -/
def missFor (u : Char) (l : List Char) : Prop :=
  l.takeWhile isDig = [] ∨ (l.dropWhile isDig).head? ≠ some u

theorem numUnit_miss {u : Char} {l : List Char} (h : missFor u l) :
    numUnit u l = ([], l) := by
  unfold numUnit
  rw [if_neg]
  rcases h with h | h <;> simp [h]

theorem takeWhile_eq_nil_of_headFails {l : List Char}
    (h : headFails isDig l) : l.takeWhile isDig = [] := by
  have h2 := @takeWhile_append_of Char isDig [] l (by intro a ha; simp at ha) h
  simpa using h2

theorem missFor_of_headFails {u : Char} {l : List Char}
    (h : headFails isDig l) : missFor u l :=
  Or.inl (takeWhile_eq_nil_of_headFails h)

theorem missFor_nil (u : Char) : missFor u [] :=
  missFor_of_headFails (headFails_nil _)

theorem missFor_seg {u u' : Char} (hu' : isDig u' = false) (hne : u' ≠ u)
    (v : Int) {rest : List Char} (h : missFor u rest) :
    missFor u (calSeg v u' ++ rest) := by
  by_cases hv : 0 < v
  · right
    have hall : ∀ a ∈ natToDigits v.toNat, isDig a = true := by
      intro a ha; exact natToDigits_mem_isDig ha
    have hdw : (natToDigits v.toNat ++ (u' :: rest)).dropWhile isDig
        = u' :: rest :=
      dropWhile_append_of hall (headFails_cons hu' rest)
    simp only [calSeg, if_pos hv, List.append_assoc, List.singleton_append,
      hdw]
    simp [hne]
  · simpa [calSeg, hv] using h

theorem numUnit_calSeg {u : Char} (hu : isDig u = false) (v : Int)
    {rest : List Char} (h : missFor u rest) :
    numUnit u (calSeg v u ++ rest) = (calSeg v u, rest) := by
  by_cases hv : 0 < v
  · have hall : ∀ a ∈ natToDigits v.toNat, isDig a = true := by
      intro a ha; exact natToDigits_mem_isDig ha
    have htw : (natToDigits v.toNat ++ (u :: rest)).takeWhile isDig
        = natToDigits v.toNat :=
      takeWhile_append_of hall (headFails_cons hu rest)
    have hdw : (natToDigits v.toNat ++ (u :: rest)).dropWhile isDig
        = u :: rest :=
      dropWhile_append_of hall (headFails_cons hu rest)
    simp only [calSeg, if_pos hv, List.append_assoc, List.singleton_append]
    unfold numUnit
    rw [if_pos]
    · simp [htw, hdw]
    · exact ⟨by simp [htw, natToDigits_ne_nil], by simp [hdw]⟩
  · simp only [calSeg, if_neg hv, List.nil_append]
    exact numUnit_miss h

/-! ### Conversion lemmas -/

theorem atoi_natToDigits {v : Int} (h0 : 0 ≤ v) (hb : v ≤ MaxInt64) :
    atoi (natToDigits v.toNat) = Except.ok v := by
  unfold atoi
  rw [if_pos ⟨natToDigits_ne_nil _, natToDigits_all _⟩]
  rw [natToDigits_val]
  rw [if_pos (by rwa [Int.toNat_of_nonneg h0])]
  rw [Int.toNat_of_nonneg h0]

theorem atoi_ok_val {l : List Char} {v : Int} (h : atoi l = Except.ok v) :
    v = (digitsVal l : Int) ∧ 0 ≤ v := by
  unfold atoi at h
  split_ifs at h
  · cases h
    exact ⟨rfl, Int.natCast_nonneg _⟩

theorem atoi_error_ne {l : List Char} {e : PError}
    (h : atoi l = Except.error e) : e ≠ PError.invalidFormat := by
  unfold atoi at h
  split_ifs at h <;> cases h <;> simp

theorem parseField_calSeg {v : Int} (u : Char) (h0 : 0 ≤ v)
    (hb : v ≤ MaxInt64) : parseField (calSeg v u) = Except.ok v := by
  by_cases hv : 0 < v
  · unfold parseField
    rw [calSeg, if_pos hv, if_pos (by simp [natToDigits_ne_nil])]
    rw [dropLast_append_single]
    exact atoi_natToDigits h0 hb
  · have hz : v = 0 := by omega
    simp [parseField, calSeg, hv, hz]

theorem parseField_ok_val {g : List Char} {v : Int}
    (h : parseField g = Except.ok v) :
    (g ≠ [] → v = (digitsVal g.dropLast : Int) ∧ 0 ≤ v) ∧
    (g = [] → v = 0) := by
  unfold parseField at h
  by_cases hg : g ≠ []
  · rw [if_pos hg] at h
    exact ⟨fun _ => atoi_ok_val h, fun he => absurd he hg⟩
  · rw [if_neg hg] at h
    cases h
    exact ⟨fun he => absurd (by simpa using hg) he, fun _ => rfl⟩

theorem parseField_error_ne {g : List Char} {e : PError}
    (h : parseField g = Except.error e) : e ≠ PError.invalidFormat := by
  unfold parseField at h
  split_ifs at h
  exact atoi_error_ne h

theorem parseRep_error_ne {m : Groups} {e : PError}
    (h : parseRep m = Except.error e) : e ≠ PError.invalidFormat := by
  unfold parseRep at h
  split_ifs at h
  exact atoi_error_ne h

/-! ### Formatter normal form -/

theorem strData_append (a b : String) : (a ++ b).data = a.data ++ b.data := rfl

theorem strMk_data (l : List Char) : (String.mk l).data = l := rfl

theorem intItoa_data_of_pos {i : Int} (h : 0 < i) :
    (intItoa i).data = natToDigits i.toNat := by
  unfold intItoa
  rw [if_neg (by omega)]

theorem toStr_data (p : Period) : (Period.toStr p).data = canonChars p := by
  unfold Period.toStr canonChars calSeg
  rcases lt_trichotomy p.Repetitions 0 with hr | hr | hr
  · have hr1 : ¬ p.Repetitions = 0 := by omega
    have hr2 : ¬ 0 < p.Repetitions := by omega
    by_cases hY : 0 < p.Year <;> by_cases hM : 0 < p.Month <;>
      by_cases hD : 0 < p.Day <;> by_cases hH : 0 < p.Hour <;>
      by_cases hMi : 0 < p.Minute <;> by_cases hS : 0 < p.Second <;>
      simp [*, strData_append, strMk_data, intItoa_data_of_pos,
        List.append_assoc]
  · have hr2 : ¬ 0 < p.Repetitions := by omega
    by_cases hY : 0 < p.Year <;> by_cases hM : 0 < p.Month <;>
      by_cases hD : 0 < p.Day <;> by_cases hH : 0 < p.Hour <;>
      by_cases hMi : 0 < p.Minute <;> by_cases hS : 0 < p.Second <;>
      simp [*, strData_append, strMk_data, intItoa_data_of_pos,
        List.append_assoc]
  · have hr1 : ¬ p.Repetitions = 0 := by omega
    by_cases hY : 0 < p.Year <;> by_cases hM : 0 < p.Month <;>
      by_cases hD : 0 < p.Day <;> by_cases hH : 0 < p.Hour <;>
      by_cases hMi : 0 < p.Minute <;> by_cases hS : 0 < p.Second <;>
      simp [*, strData_append, strMk_data, intItoa_data_of_pos,
        List.append_assoc]

theorem specFormat_data (p : Period) : (specFormat p).data = canonChars p := by
  unfold specFormat canonChars calSeg
  rcases lt_trichotomy p.Repetitions 0 with hr | hr | hr
  · have hr1 : ¬ p.Repetitions = 0 := by omega
    have hr2 : ¬ 0 < p.Repetitions := by omega
    by_cases hY : 0 < p.Year <;> by_cases hM : 0 < p.Month <;>
      by_cases hD : 0 < p.Day <;> by_cases hH : 0 < p.Hour <;>
      by_cases hMi : 0 < p.Minute <;> by_cases hS : 0 < p.Second <;>
      simp [*, strData_append, strMk_data, intItoa_data_of_pos,
        List.append_assoc]
  · have hr2 : ¬ 0 < p.Repetitions := by omega
    by_cases hY : 0 < p.Year <;> by_cases hM : 0 < p.Month <;>
      by_cases hD : 0 < p.Day <;> by_cases hH : 0 < p.Hour <;>
      by_cases hMi : 0 < p.Minute <;> by_cases hS : 0 < p.Second <;>
      simp [*, strData_append, strMk_data, intItoa_data_of_pos,
        List.append_assoc]
  · have hr1 : ¬ p.Repetitions = 0 := by omega
    by_cases hY : 0 < p.Year <;> by_cases hM : 0 < p.Month <;>
      by_cases hD : 0 < p.Day <;> by_cases hH : 0 < p.Hour <;>
      by_cases hMi : 0 < p.Minute <;> by_cases hS : 0 < p.Second <;>
      simp [*, strData_append, strMk_data, intItoa_data_of_pos,
        List.append_assoc]

/-! ### Matching the formatter output (claim C1) -/


theorem missFor_calSeg_single {u u' : Char} (hu' : isDig u' = false)
    (hne : u' ≠ u) (v : Int) : missFor u (calSeg v u') := by
  have h := @missFor_seg u u' hu' hne v [] (missFor_nil u)
  simpa using h

theorem numUnit_calSeg_single {u : Char} (hu : isDig u = false) (v : Int) :
    numUnit u (calSeg v u) = (calSeg v u, []) := by
  have h := @numUnit_calSeg u hu v [] (missFor_nil u)
  simpa using h

theorem matchAt_canon (p : Period) (hr : 0 < p.Repetitions)
    (hy : 0 ≤ p.Year) (hm : 0 ≤ p.Month) (hd : 0 ≤ p.Day)
    (hh : 0 ≤ p.Hour) (hmi : 0 ≤ p.Minute) (hs : 0 ≤ p.Second)
    (hnz : 0 < p.Year ∨ 0 < p.Month ∨ 0 < p.Day ∨ 0 < p.Hour ∨
      0 < p.Minute ∨ 0 < p.Second) :
    matchAt (canonChars p) =
      some ⟨['R'], natToDigits p.Repetitions.toNat,
        calSeg p.Year 'Y', calSeg p.Month 'M', calSeg p.Day 'D',
        (if 0 < p.Hour ∨ 0 < p.Minute ∨ 0 < p.Second then ['T'] else []),
        calSeg p.Hour 'H', calSeg p.Minute 'M', calSeg p.Second 'S'⟩ := by
  have hr1 : ¬ p.Repetitions = 0 := by omega
  have hcc : canonChars p =
      'R' :: (natToDigits p.Repetitions.toNat ++ '/' :: 'P' ::
        (calSeg p.Year 'Y' ++ (calSeg p.Month 'M' ++ (calSeg p.Day 'D' ++
          (if 0 < p.Hour ∨ 0 < p.Minute ∨ 0 < p.Second then
            'T' :: (calSeg p.Hour 'H' ++ (calSeg p.Minute 'M' ++
              calSeg p.Second 'S'))
          else []))))) := by
    unfold canonChars
    rw [if_neg hr1, if_pos hr, if_neg (not_not_intro hnz)]
    simp [List.append_assoc]
  have hall : ∀ a ∈ natToDigits p.Repetitions.toNat, isDig a = true :=
    fun a ha => natToDigits_mem_isDig ha
  have hslash : isDig '/' = false := by decide
  have htw := takeWhile_append_of hall
    (headFails_cons hslash ('P' ::
      (calSeg p.Year 'Y' ++ (calSeg p.Month 'M' ++ (calSeg p.Day 'D' ++
        (if 0 < p.Hour ∨ 0 < p.Minute ∨ 0 < p.Second then
          'T' :: (calSeg p.Hour 'H' ++ (calSeg p.Minute 'M' ++
            calSeg p.Second 'S'))
        else []))))))
  have hdw := dropWhile_append_of hall
    (headFails_cons hslash ('P' ::
      (calSeg p.Year 'Y' ++ (calSeg p.Month 'M' ++ (calSeg p.Day 'D' ++
        (if 0 < p.Hour ∨ 0 < p.Minute ∨ 0 < p.Second then
          'T' :: (calSeg p.Hour 'H' ++ (calSeg p.Minute 'M' ++
            calSeg p.Second 'S'))
        else []))))))
  have hfc : headFails isDig
      (if 0 < p.Hour ∨ 0 < p.Minute ∨ 0 < p.Second then
        'T' :: (calSeg p.Hour 'H' ++ (calSeg p.Minute 'M' ++
          calSeg p.Second 'S'))
      else []) := by
    split
    · exact headFails_cons (by decide) _
    · exact headFails_nil _
  have missY : missFor 'Y'
      (calSeg p.Month 'M' ++ (calSeg p.Day 'D' ++
        (if 0 < p.Hour ∨ 0 < p.Minute ∨ 0 < p.Second then
          'T' :: (calSeg p.Hour 'H' ++ (calSeg p.Minute 'M' ++
            calSeg p.Second 'S'))
        else []))) :=
    missFor_seg (by decide) (by decide) _
      (missFor_seg (by decide) (by decide) _ (missFor_of_headFails hfc))
  have missM : missFor 'M'
      (calSeg p.Day 'D' ++
        (if 0 < p.Hour ∨ 0 < p.Minute ∨ 0 < p.Second then
          'T' :: (calSeg p.Hour 'H' ++ (calSeg p.Minute 'M' ++
            calSeg p.Second 'S'))
        else [])) :=
    missFor_seg (by decide) (by decide) _ (missFor_of_headFails hfc)
  have missD : missFor 'D'
      (if 0 < p.Hour ∨ 0 < p.Minute ∨ 0 < p.Second then
        'T' :: (calSeg p.Hour 'H' ++ (calSeg p.Minute 'M' ++
          calSeg p.Second 'S'))
      else []) := missFor_of_headFails hfc
  rw [hcc]
  unfold matchAt
  rw [optC_hit]
  simp only [htw, hdw]
  rw [optC_hit]
  simp only
  rw [numUnit_calSeg (by decide) p.Year missY,
    numUnit_calSeg (by decide) p.Month missM,
    numUnit_calSeg (by decide) p.Day missD]
  by_cases hC : 0 < p.Hour ∨ 0 < p.Minute ∨ 0 < p.Second
  · rw [if_pos hC]
    rw [optC_hit]
    rw [numUnit_calSeg (by decide) p.Hour
        (missFor_seg (by decide) (by decide) _
          (missFor_calSeg_single (by decide) (by decide) _)),
      numUnit_calSeg (by decide) p.Minute
        (missFor_calSeg_single (by decide) (by decide) _),
      numUnit_calSeg_single (by decide) p.Second]
    simp [hC]
  · rw [if_neg hC]
    have h7 : p.Hour = 0 := by omega
    have h8 : p.Minute = 0 := by omega
    have h9 : p.Second = 0 := by omega
    rw [optC_nil]
    rw [numUnit_miss (missFor_nil _), numUnit_miss (missFor_nil _),
      numUnit_miss (missFor_nil _)]
    simp [calSeg, h7, h8, h9]

theorem find_of_matchAt {l : List Char} {g : Groups}
    (h : matchAt l = some g) (hne : l ≠ []) : find l = some g := by
  cases l with
  | nil => exact absurd rfl hne
  | cons c t =>
    unfold find
    rw [h]

theorem canonChars_ne_nil (p : Period) : canonChars p ≠ [] := by
  unfold canonChars
  split_ifs <;> simp

/-- C1 (amended): for every Period p whose Repetitions is strictly
positive (and within the `int` range), whose component fields are
non-negative ints and not all zero, `Parse(String(p))` succeeds and
yields a Period whose Repetitions, Year, Month, Day, Hour, Minute and
Second fields are identical to those of p.  (The original claim allowed
`Repetitions = 0`; see the counterexample.) -/
theorem c1_roundtrip_amended (p : Period)
    (hr : 0 < p.Repetitions) (hrb : p.Repetitions ≤ MaxInt64)
    (hy : 0 ≤ p.Year) (hyb : p.Year ≤ MaxInt64)
    (hm : 0 ≤ p.Month) (hmb : p.Month ≤ MaxInt64)
    (hd : 0 ≤ p.Day) (hdb : p.Day ≤ MaxInt64)
    (hh : 0 ≤ p.Hour) (hhb : p.Hour ≤ MaxInt64)
    (hmi : 0 ≤ p.Minute) (hmib : p.Minute ≤ MaxInt64)
    (hs : 0 ≤ p.Second) (hsb : p.Second ≤ MaxInt64)
    (hnz : ¬ (p.Year = 0 ∧ p.Month = 0 ∧ p.Day = 0 ∧ p.Hour = 0 ∧
      p.Minute = 0 ∧ p.Second = 0)) :
    ∃ q : Period, Parse (Period.toStr p) = Except.ok q ∧
      q.Repetitions = p.Repetitions ∧ q.Year = p.Year ∧ q.Month = p.Month ∧
      q.Day = p.Day ∧ q.Hour = p.Hour ∧ q.Minute = p.Minute ∧
      q.Second = p.Second := by
  have hnz2 : 0 < p.Year ∨ 0 < p.Month ∨ 0 < p.Day ∨ 0 < p.Hour ∨
      0 < p.Minute ∨ 0 < p.Second := by omega
  have hfind : find (Period.toStr p).data =
      some ⟨['R'], natToDigits p.Repetitions.toNat,
        calSeg p.Year 'Y', calSeg p.Month 'M', calSeg p.Day 'D',
        (if 0 < p.Hour ∨ 0 < p.Minute ∨ 0 < p.Second then ['T'] else []),
        calSeg p.Hour 'H', calSeg p.Minute 'M', calSeg p.Second 'S'⟩ := by
    rw [toStr_data]
    exact find_of_matchAt (matchAt_canon p hr hy hm hd hh hmi hs hnz2)
      (canonChars_ne_nil p)
  have hrep : parseRep
      ⟨['R'], natToDigits p.Repetitions.toNat,
        calSeg p.Year 'Y', calSeg p.Month 'M', calSeg p.Day 'D',
        (if 0 < p.Hour ∨ 0 < p.Minute ∨ 0 < p.Second then ['T'] else []),
        calSeg p.Hour 'H', calSeg p.Minute 'M', calSeg p.Second 'S'⟩
      = Except.ok p.Repetitions := by
    unfold parseRep
    rw [if_pos rfl, if_pos (by simp [natToDigits_ne_nil])]
    exact atoi_natToDigits hr.le hrb
  refine ⟨⟨p.Repetitions, p.Year, p.Month, p.Day, p.Hour, p.Minute,
      p.Second,
      timeChain
        ⟨['R'], natToDigits p.Repetitions.toNat,
          calSeg p.Year 'Y', calSeg p.Month 'M', calSeg p.Day 'D',
          (if 0 < p.Hour ∨ 0 < p.Minute ∨ 0 < p.Second then ['T'] else []),
          calSeg p.Hour 'H', calSeg p.Minute 'M', calSeg p.Second 'S'⟩
        p.Hour p.Minute p.Second,
      false⟩, ?_, rfl, rfl, rfl, rfl, rfl, rfl, rfl⟩
  simp only [Parse, hfind, hrep, parseField_calSeg 'Y' hy hyb,
    parseField_calSeg 'M' hm hmb, parseField_calSeg 'D' hd hdb,
    parseField_calSeg 'H' hh hhb, parseField_calSeg 'M' hmi hmib,
    parseField_calSeg 'S' hs hsb]

/-- C1 counterexample: the claim as stated fails at `Repetitions = 0`.
For p with Repetitions 0 and Year 1, `String(p)` is `"R/P1Y"`, and
`Parse` maps the bare `R` prefix to Repetitions `-1`, not `0`. -/
theorem c1_counterexample :
    (⟨0, 1, 0, 0, 0, 0, 0, 0, false⟩ : Period).Repetitions = 0 ∧
    ¬ ∃ q : Period,
      Parse (Period.toStr ⟨0, 1, 0, 0, 0, 0, 0, 0, false⟩) = Except.ok q ∧
      q.Repetitions = 0 := by
  refine ⟨rfl, ?_⟩
  rintro ⟨q, hq, hrep⟩
  have h2 : Parse (Period.toStr ⟨0, 1, 0, 0, 0, 0, 0, 0, false⟩) =
      Except.ok ⟨-1, 1, 0, 0, 0, 0, 0, 0, false⟩ := rfl
  rw [h2] at hq
  cases hq
  exact absurd hrep (by decide)

/-- C1 witness: the amended round-trip at the concrete period
R5/P1Y2M3DT4H5M6S. -/
theorem c1_roundtrip_amended_witness :
    ∃ q : Period,
      Parse (Period.toStr ⟨5, 1, 2, 3, 4, 5, 6, 0, false⟩) = Except.ok q ∧
      q.Repetitions = 5 ∧ q.Year = 1 ∧ q.Month = 2 ∧ q.Day = 3 ∧
      q.Hour = 4 ∧ q.Minute = 5 ∧ q.Second = 6 :=
  c1_roundtrip_amended ⟨5, 1, 2, 3, 4, 5, 6, 0, false⟩ (by decide)
    (by decide) (by decide) (by decide) (by decide) (by decide) (by decide)
    (by decide) (by decide) (by decide) (by decide) (by decide) (by decide)
    (by decide) (by decide)

/-! ### Decomposing a successful Parse -/

theorem Parse_ok_parts {s : String} {m : Groups} {p : Period}
    (hf : find s.data = some m) (hp : Parse s = Except.ok p) :
    parseRep m = Except.ok p.Repetitions ∧
    parseField m.g3 = Except.ok p.Year ∧
    parseField m.g4 = Except.ok p.Month ∧
    parseField m.g5 = Except.ok p.Day ∧
    parseField m.g7 = Except.ok p.Hour ∧
    parseField m.g8 = Except.ok p.Minute ∧
    parseField m.g9 = Except.ok p.Second ∧
    p.time = timeChain m p.Hour p.Minute p.Second ∧
    p.running = false := by
  unfold Parse at hp
  rw [hf] at hp
  dsimp only at hp
  cases h1 : parseRep m with
  | error e => rw [h1] at hp; simp at hp
  | ok v1 =>
  cases h2 : parseField m.g3 with
  | error e => rw [h1, h2] at hp; simp at hp
  | ok v2 =>
  cases h3 : parseField m.g4 with
  | error e => rw [h1, h2, h3] at hp; simp at hp
  | ok v3 =>
  cases h4 : parseField m.g5 with
  | error e => rw [h1, h2, h3, h4] at hp; simp at hp
  | ok v4 =>
  cases h5 : parseField m.g7 with
  | error e => rw [h1, h2, h3, h4, h5] at hp; simp at hp
  | ok v5 =>
  cases h6 : parseField m.g8 with
  | error e => rw [h1, h2, h3, h4, h5, h6] at hp; simp at hp
  | ok v6 =>
  cases h7 : parseField m.g9 with
  | error e => rw [h1, h2, h3, h4, h5, h6, h7] at hp; simp at hp
  | ok v7 =>
    rw [h1, h2, h3, h4, h5, h6, h7] at hp
    simp only [Except.ok.injEq] at hp
    subst hp
    exact ⟨rfl, rfl, rfl, rfl, rfl, rfl, rfl, rfl, rfl⟩

theorem Parse_ok_find {s : String} {p : Period}
    (hp : Parse s = Except.ok p) : ∃ m, find s.data = some m := by
  unfold Parse at hp
  cases hf : find s.data with
  | none => rw [hf] at hp; simp at hp
  | some m => exact ⟨m, rfl⟩

/-- C2: Parse maps the repetition prefix as follows: a match starting
with the literal `R` and no following digits yields Repetitions `-1`;
`R` followed by digits yields Repetitions equal to that decimal number;
and an input with no leading `R` group yields Repetitions `0`. -/
theorem c2_repetition_mapping (s : String) (m : Groups) (p : Period)
    (hf : find s.data = some m) (hp : Parse s = Except.ok p) :
    (m.g1 = ['R'] ∧ m.g2 = [] → p.Repetitions = -1) ∧
    (m.g1 = ['R'] ∧ m.g2 ≠ [] → p.Repetitions = (digitsVal m.g2 : Int)) ∧
    (m.g1 ≠ ['R'] → p.Repetitions = 0) := by
  have h := (Parse_ok_parts hf hp).1
  refine ⟨?_, ?_, ?_⟩
  · rintro ⟨hg1, hg2⟩
    unfold parseRep at h
    rw [if_pos hg1, if_neg (by simp [hg2])] at h
    exact (Except.ok.inj h).symm
  · rintro ⟨hg1, hg2⟩
    unfold parseRep at h
    rw [if_pos hg1, if_pos hg2] at h
    exact (atoi_ok_val h).1
  · intro hg1
    unfold parseRep at h
    rw [if_neg hg1] at h
    exact (Except.ok.inj h).symm

/-- C2 witness: parsing R5/PT1S stores the decimal value of the matched
digit string 5 as the repetition count. -/
theorem c2_repetition_mapping_witness :
    (⟨5, 0, 0, 0, 0, 0, 1, 1000000000, false⟩ : Period).Repetitions =
      (digitsVal ['5'] : Int) := by
  have h := c2_repetition_mapping "R5/PT1S"
    ⟨['R'], ['5'], [], [], [], ['T'], [], [], ['1', 'S']⟩
    ⟨5, 0, 0, 0, 0, 0, 1, 1000000000, false⟩ rfl rfl
  exact h.2.1 ⟨rfl, by decide⟩

/-- C3: String never fails and is deterministic (it is embedded as a
total function), and it returns exactly the canonical text described by
the specification, embedded as `specFormat`: the `R/` / `R<n>/` / empty
repetition prefix, then `P`, then the strictly positive calendar
components in order Y, M, D, then a single `T` followed by the strictly
positive clock components in order H, M, S when any clock component is
positive, and the literal `T0S` when no component at all is positive. -/
theorem c3_canonical_format (p : Period) : Period.toStr p = specFormat p := by
  apply String.ext
  rw [toStr_data, specFormat_data]

/-- C4: for every Period with Repetitions 0, Next returns the zero
`time.Time` regardless of the reference time. -/
theorem c4_next_zero_repetitions (p : Period) (t : GoTime)
    (h : p.Repetitions = 0) : Next p t = GoTime.zero := by
  unfold Next
  rw [if_pos h]

/-- C4 witness: a concrete zero-repetition period. -/
theorem c4_next_zero_repetitions_witness :
    Next ⟨0, 3, 9, 7, 12, 30, 50, 0, false⟩
      (GoTime.add GoTime.zero 5) = GoTime.zero :=
  c4_next_zero_repetitions ⟨0, 3, 9, 7, 12, 30, 50, 0, false⟩
    (GoTime.add GoTime.zero 5) rfl

theorem wrap64_wrap64 (n : Int) : wrap64 (wrap64 n) = wrap64 n :=
  wrap64_eq_self (wrap64_lb n) (wrap64_ub n)

theorem wrap64_zero : wrap64 0 = 0 := by norm_num [wrap64]

theorem i64mul_zero_left (b : Int) : i64mul 0 b = 0 := by
  simp [i64mul, wrap64_zero]

theorem timeChain_eq (m : Groups) (h mi s : Int)
    (h7 : m.g7 = [] → h = 0) (h8 : m.g8 = [] → mi = 0)
    (h9 : m.g9 = [] → s = 0) :
    timeChain m h mi s =
      i64add (i64add (i64mul h nsPerHour) (i64mul mi nsPerMinute))
        (i64mul s nsPerSecond) := by
  unfold timeChain
  by_cases e7 : m.g7 = [] <;> by_cases e8 : m.g8 = [] <;>
    by_cases e9 : m.g9 = [] <;>
    simp [e7, e8, e9, h7, h8, h9, i64add, i64mul, wrap64_wrap64,
      wrap64_zero, zero_mul, add_zero, zero_add]

theorem parseField_ok_nonneg {g : List Char} {v : Int}
    (h : parseField g = Except.ok v) : 0 ≤ v := by
  rcases parseField_ok_val h with ⟨h1, h2⟩
  by_cases hg : g = []
  · rw [h2 hg]
  · exact (h1 hg).2

/-- C5 counterexample: for hour = 3000000 (with Repetitions 1) the
64-bit duration computation wraps, so Next does not add the fixed
duration Hour hours + Minute minutes + Second seconds: it adds the
wrapped negative duration instead. -/
theorem c5_counterexample :
    (⟨1, 0, 0, 0, 3000000, 0, 0, 0, false⟩ : Period).Repetitions ≠ 0 ∧
    Next ⟨1, 0, 0, 0, 3000000, 0, 0, 0, false⟩ GoTime.zero ≠
      GoTime.add (GoTime.addDate GoTime.zero 0 0 0)
        (3000000 * nsPerHour + 0 * nsPerMinute + 0 * nsPerSecond) :=
  ⟨by decide, by decide⟩

/-- C5 (amended): for every Period with Repetitions different from 0 and
every reference time, Next returns the reference advanced by calendar
arithmetic over (Year, Month, Day) followed by adding the fixed duration
Hour hours + Minute minutes + Second seconds, provided the clock
components are non-negative and that duration fits in a 64-bit
`time.Duration` (otherwise the added duration is the two's-complement
wrap of that sum).  Next is pure: it is embedded as a function that
takes the Period unchanged and returns only the new time, so it cannot
mutate Repetitions, and repeated calls agree definitionally. -/
theorem c5_next_formula_amended (p : Period) (t : GoTime)
    (h : p.Repetitions ≠ 0) (hh : 0 ≤ p.Hour) (hmi : 0 ≤ p.Minute)
    (hs : 0 ≤ p.Second)
    (hb : p.Hour * nsPerHour + p.Minute * nsPerMinute +
      p.Second * nsPerSecond < 9223372036854775808) :
    Next p t = GoTime.add (GoTime.addDate t p.Year p.Month p.Day)
      (p.Hour * nsPerHour + p.Minute * nsPerMinute +
        p.Second * nsPerSecond) := by
  unfold Next
  rw [if_neg h, i64_clock_sum hh hmi hs hb]

/-- C5 witness: the amended Next formula at a concrete period and
reference time. -/
theorem c5_next_formula_amended_witness :
    Next ⟨1, 2, 3, 4, 5, 6, 7, 0, false⟩ GoTime.zero =
      GoTime.add (GoTime.addDate GoTime.zero 2 3 4)
        (5 * nsPerHour + 6 * nsPerMinute + 7 * nsPerSecond) :=
  c5_next_formula_amended ⟨1, 2, 3, 4, 5, 6, 7, 0, false⟩ GoTime.zero
    (by decide) (by decide) (by decide) (by decide) (by decide)

/-- C8 counterexample: for hour = 3000000 the cached sub-day duration
wraps around 64 bits, so it does not equal
Hour*3600 + Minute*60 + Second seconds. -/
theorem c8_counterexample :
    (New GoTime.zero 0 0 0 0 3000000 0 0).time ≠
      (3000000 * 3600 + 0 * 60 + 0) * nsPerSecond := by decide

/-- C8 (amended): every Period produced by New or by a successful Parse
has its cached sub-day duration equal to
Hour*3600 + Minute*60 + Second seconds, provided the components are
non-negative and that duration fits in a 64-bit `time.Duration`
(otherwise the cache holds the two's-complement wrap of that sum). -/
theorem c8_duration_invariant_amended :
    (∀ (t : GoTime) (reps y mo d h mi s : Int), 0 ≤ h → 0 ≤ mi → 0 ≤ s →
      h * nsPerHour + mi * nsPerMinute + s * nsPerSecond <
        9223372036854775808 →
      (New t reps y mo d h mi s).time =
        (h * 3600 + mi * 60 + s) * nsPerSecond) ∧
    (∀ (s : String) (p : Period), Parse s = Except.ok p →
      p.Hour * nsPerHour + p.Minute * nsPerMinute +
          p.Second * nsPerSecond < 9223372036854775808 →
      p.time = (p.Hour * 3600 + p.Minute * 60 + p.Second) * nsPerSecond) := by
  constructor
  · intro t reps y mo d h mi s hh hmi hs hb
    unfold New
    dsimp only
    rw [i64_clock_sum hh hmi hs hb]
    unfold nsPerHour nsPerMinute nsPerSecond
    ring
  · intro s p hp hb
    obtain ⟨m, hf⟩ := Parse_ok_find hp
    have parts := Parse_ok_parts hf hp
    have hh := parseField_ok_nonneg parts.2.2.2.2.1
    have hmi := parseField_ok_nonneg parts.2.2.2.2.2.1
    have hs := parseField_ok_nonneg parts.2.2.2.2.2.2.1
    have hz7 : m.g7 = [] → p.Hour = 0 :=
      (parseField_ok_val parts.2.2.2.2.1).2
    have hz8 : m.g8 = [] → p.Minute = 0 :=
      (parseField_ok_val parts.2.2.2.2.2.1).2
    have hz9 : m.g9 = [] → p.Second = 0 :=
      (parseField_ok_val parts.2.2.2.2.2.2.1).2
    rw [parts.2.2.2.2.2.2.2.1,
      timeChain_eq m p.Hour p.Minute p.Second hz7 hz8 hz9,
      i64_clock_sum hh hmi hs hb]
    unfold nsPerHour nsPerMinute nsPerSecond
    ring

/-- C8 witness: the cached duration of a concrete New period. -/
theorem c8_duration_invariant_amended_witness :
    (New GoTime.zero 0 0 0 0 12 30 50).time =
      (12 * 3600 + 30 * 60 + 50) * nsPerSecond :=
  c8_duration_invariant_amended.1 GoTime.zero 0 0 0 0 12 30 50
    (by decide) (by decide) (by decide) (by decide)

/-- How one numeric component of a successfully parsed Period relates to
its capture group: a participating group is stored as the non-negative
decimal value of its digits (the unit letter stripped), an absent group
leaves the field 0. -/
def fieldSpec (g : List Char) (v : Int) : Prop :=
  (g ≠ [] → v = (digitsVal g.dropLast : Int) ∧ 0 ≤ v) ∧ (g = [] → v = 0)

/-- C6: in a successfully parsed Period every numeric component present
in the input is stored as its non-negative base-10 integer value and
every absent field is 0; a lone trailing `T` with no clock fields is
accepted; and Parse of P3Y9M7DT12H30M50S succeeds with Repetitions 0,
Year 3, Month 9, Day 7, Hour 12, Minute 30, Second 50. -/
theorem c6_component_storage :
    (∀ (s : String) (m : Groups) (p : Period),
      find s.data = some m → Parse s = Except.ok p →
      fieldSpec m.g3 p.Year ∧ fieldSpec m.g4 p.Month ∧
      fieldSpec m.g5 p.Day ∧ fieldSpec m.g7 p.Hour ∧
      fieldSpec m.g8 p.Minute ∧ fieldSpec m.g9 p.Second) ∧
    Parse "PT" = Except.ok ⟨0, 0, 0, 0, 0, 0, 0, 0, false⟩ ∧
    Parse "P3Y9M7DT12H30M50S" =
      Except.ok ⟨0, 3, 9, 7, 12, 30, 50, 45050000000000, false⟩ := by
  refine ⟨?_, rfl, rfl⟩
  intro s m p hf hp
  have parts := Parse_ok_parts hf hp
  exact ⟨parseField_ok_val parts.2.1, parseField_ok_val parts.2.2.1,
    parseField_ok_val parts.2.2.2.1, parseField_ok_val parts.2.2.2.2.1,
    parseField_ok_val parts.2.2.2.2.2.1,
    parseField_ok_val parts.2.2.2.2.2.2.1⟩

/-- C6 witness: the Year group of P3Y9M7DT12H30M50S. -/
theorem c6_component_storage_witness : fieldSpec ['3', 'Y'] (3 : Int) := by
  have h := c6_component_storage.1 "P3Y9M7DT12H30M50S"
    ⟨[], [], ['3', 'Y'], ['9', 'M'], ['7', 'D'], ['T'],
      ['1', '2', 'H'], ['3', '0', 'M'], ['5', '0', 'S']⟩
    ⟨0, 3, 9, 7, 12, 30, 50, 45050000000000, false⟩ rfl rfl
  exact h.1

/-- C7: Parse is atomic in its error behaviour.  Text on which the
recognizer finds no match fails with the "invalid format" error (before
any numeric conversion, which cannot even be reached); every
grammar-matched numeric field whose integer conversion fails makes the
whole Parse fail with that conversion error — proved for each of the
seven numeric groups (repetitions, Y, M, D, H, M, S) following the
code's conversion order, and, independently of order, a conversion
failure in any group excludes a successful Parse; shown concretely at
out-of-range numerals in repetition, calendar and clock position;
Parse of garbage errors; and an error result structurally excludes any
Period result. -/
theorem c7_error_atomicity :
    (∀ s : String, find s.data = none →
      Parse s = Except.error PError.invalidFormat) ∧
    (∀ (s : String) (m : Groups) (e : PError), find s.data = some m →
      parseRep m = Except.error e → Parse s = Except.error e) ∧
    (∀ (s : String) (m : Groups) (r0 : Int) (e : PError),
      find s.data = some m → parseRep m = Except.ok r0 →
      parseField m.g3 = Except.error e → Parse s = Except.error e) ∧
    (∀ (s : String) (m : Groups) (r0 v3 : Int) (e : PError),
      find s.data = some m → parseRep m = Except.ok r0 →
      parseField m.g3 = Except.ok v3 →
      parseField m.g4 = Except.error e → Parse s = Except.error e) ∧
    (∀ (s : String) (m : Groups) (r0 v3 v4 : Int) (e : PError),
      find s.data = some m → parseRep m = Except.ok r0 →
      parseField m.g3 = Except.ok v3 → parseField m.g4 = Except.ok v4 →
      parseField m.g5 = Except.error e → Parse s = Except.error e) ∧
    (∀ (s : String) (m : Groups) (r0 v3 v4 v5 : Int) (e : PError),
      find s.data = some m → parseRep m = Except.ok r0 →
      parseField m.g3 = Except.ok v3 → parseField m.g4 = Except.ok v4 →
      parseField m.g5 = Except.ok v5 →
      parseField m.g7 = Except.error e → Parse s = Except.error e) ∧
    (∀ (s : String) (m : Groups) (r0 v3 v4 v5 v7 : Int) (e : PError),
      find s.data = some m → parseRep m = Except.ok r0 →
      parseField m.g3 = Except.ok v3 → parseField m.g4 = Except.ok v4 →
      parseField m.g5 = Except.ok v5 → parseField m.g7 = Except.ok v7 →
      parseField m.g8 = Except.error e → Parse s = Except.error e) ∧
    (∀ (s : String) (m : Groups) (r0 v3 v4 v5 v7 v8 : Int) (e : PError),
      find s.data = some m → parseRep m = Except.ok r0 →
      parseField m.g3 = Except.ok v3 → parseField m.g4 = Except.ok v4 →
      parseField m.g5 = Except.ok v5 → parseField m.g7 = Except.ok v7 →
      parseField m.g8 = Except.ok v8 →
      parseField m.g9 = Except.error e → Parse s = Except.error e) ∧
    (∀ (s : String) (m : Groups), find s.data = some m →
      ((∃ e, parseRep m = Except.error e) ∨
       (∃ e, parseField m.g3 = Except.error e) ∨
       (∃ e, parseField m.g4 = Except.error e) ∨
       (∃ e, parseField m.g5 = Except.error e) ∨
       (∃ e, parseField m.g7 = Except.error e) ∨
       (∃ e, parseField m.g8 = Except.error e) ∨
       (∃ e, parseField m.g9 = Except.error e)) →
      ∃ e2, Parse s = Except.error e2) ∧
    Parse "garbage" = Except.error PError.invalidFormat ∧
    Parse "R99999999999999999999/P" =
      Except.error (PError.numError ['9', '9', '9', '9', '9', '9', '9',
        '9', '9', '9', '9', '9', '9', '9', '9', '9', '9', '9', '9',
        '9']) ∧
    Parse "P99999999999999999999Y" =
      Except.error (PError.numError ['9', '9', '9', '9', '9', '9', '9',
        '9', '9', '9', '9', '9', '9', '9', '9', '9', '9', '9', '9',
        '9']) ∧
    Parse "PT99999999999999999999S" =
      Except.error (PError.numError ['9', '9', '9', '9', '9', '9', '9',
        '9', '9', '9', '9', '9', '9', '9', '9', '9', '9', '9', '9',
        '9']) ∧
    (∀ (s : String) (e : PError) (p : Period),
      Parse s = Except.error e → Parse s ≠ Except.ok p) := by
  refine ⟨?_, ?_, ?_, ?_, ?_, ?_, ?_, ?_, ?_, rfl, rfl, rfl, rfl, ?_⟩
  · intro s h
    unfold Parse
    rw [h]
  · intro s m e hf h0
    unfold Parse
    rw [hf]
    dsimp only
    rw [h0]
  · intro s m r0 e hf h0 h3
    unfold Parse
    rw [hf]
    dsimp only
    rw [h0]
    dsimp only
    rw [h3]
  · intro s m r0 v3 e hf h0 h3 h4
    unfold Parse
    rw [hf]
    dsimp only
    rw [h0]
    dsimp only
    rw [h3]
    dsimp only
    rw [h4]
  · intro s m r0 v3 v4 e hf h0 h3 h4 h5
    unfold Parse
    rw [hf]
    dsimp only
    rw [h0]
    dsimp only
    rw [h3]
    dsimp only
    rw [h4]
    dsimp only
    rw [h5]
  · intro s m r0 v3 v4 v5 e hf h0 h3 h4 h5 h7
    unfold Parse
    rw [hf]
    dsimp only
    rw [h0]
    dsimp only
    rw [h3]
    dsimp only
    rw [h4]
    dsimp only
    rw [h5]
    dsimp only
    rw [h7]
  · intro s m r0 v3 v4 v5 v7 e hf h0 h3 h4 h5 h7 h8
    unfold Parse
    rw [hf]
    dsimp only
    rw [h0]
    dsimp only
    rw [h3]
    dsimp only
    rw [h4]
    dsimp only
    rw [h5]
    dsimp only
    rw [h7]
    dsimp only
    rw [h8]
  · intro s m r0 v3 v4 v5 v7 v8 e hf h0 h3 h4 h5 h7 h8 h9
    unfold Parse
    rw [hf]
    dsimp only
    rw [h0]
    dsimp only
    rw [h3]
    dsimp only
    rw [h4]
    dsimp only
    rw [h5]
    dsimp only
    rw [h7]
    dsimp only
    rw [h8]
    dsimp only
    rw [h9]
  · intro s m hf hbad
    cases hps : Parse s with
    | error e2 => exact ⟨e2, rfl⟩
    | ok p =>
      exfalso
      have parts := Parse_ok_parts hf hps
      rcases hbad with ⟨e, he⟩ | ⟨e, he⟩ | ⟨e, he⟩ | ⟨e, he⟩ | ⟨e, he⟩ |
        ⟨e, he⟩ | ⟨e, he⟩
      · rw [parts.1] at he; cases he
      · rw [parts.2.1] at he; cases he
      · rw [parts.2.2.1] at he; cases he
      · rw [parts.2.2.2.1] at he; cases he
      · rw [parts.2.2.2.2.1] at he; cases he
      · rw [parts.2.2.2.2.2.1] at he; cases he
      · rw [parts.2.2.2.2.2.2.1] at he; cases he
  · intro s e p he hp
    rw [he] at hp
    exact Except.noConfusion hp

/-- C7 witness: the invalid-format error at a concrete no-match input. -/
theorem c7_error_atomicity_witness :
    Parse "Q" = Except.error PError.invalidFormat :=
  c7_error_atomicity.1 "Q" rfl

theorem dropWhile_eq_self_of_headFails {l : List Char}
    (h : headFails isDig l) : l.dropWhile isDig = l := by
  have h2 := @dropWhile_append_of Char isDig [] l (by intro a ha; simp at ha) h
  simpa using h2

theorem matchAt_P_cons (t : List Char) : ∃ g, matchAt ('P' :: t) = some g := by
  unfold matchAt
  rw [optC_miss (by decide) t]
  dsimp only
  rw [takeWhile_eq_nil_of_headFails (headFails_cons (by decide) t),
    dropWhile_eq_self_of_headFails (headFails_cons (by decide) t)]
  rw [optC_miss (by decide) t]
  exact ⟨_, rfl⟩

theorem optC_snd_sub (c : Char) (l : List Char) {a : Char}
    (ha : a ∈ (optC c l).2) : a ∈ l := by
  unfold optC at ha
  cases l with
  | nil => simp at ha
  | cons x xs =>
    dsimp only at ha
    split_ifs at ha
    · exact List.mem_cons_of_mem x ha
    · exact ha

theorem matchAt_mem_P {l : List Char} {g : Groups}
    (h : matchAt l = some g) : 'P' ∈ l := by
  unfold matchAt at h
  dsimp only at h
  split at h
  · next heq =>
    have hmem : 'P' ∈ (optC '/' (((optC 'R' l).2).dropWhile isDig)).2 := by
      rw [heq]
      exact List.mem_cons_self _ _
    exact optC_snd_sub 'R' l
      (mem_of_mem_dropWhile (optC_snd_sub '/' _ hmem))
  · exact absurd h (by simp)

theorem find_cons_none {c : Char} {t : List Char}
    (h : matchAt (c :: t) = none) : find (c :: t) = find t := by
  conv_lhs => unfold find
  rw [h]

theorem find_cons_some {c : Char} {t : List Char} {g : Groups}
    (h : matchAt (c :: t) = some g) : find (c :: t) = some g := by
  conv_lhs => unfold find
  rw [h]

theorem find_some_memP : ∀ {l : List Char} {g : Groups},
    find l = some g → 'P' ∈ l := by
  intro l
  induction l with
  | nil => intro g h; simp [find] at h
  | cons c t ih =>
    intro g h
    cases hm : matchAt (c :: t) with
    | some g2 => exact matchAt_mem_P hm
    | none =>
      rw [find_cons_none hm] at h
      exact List.mem_cons_of_mem c (ih h)

theorem find_some_of_memP : ∀ {l : List Char}, 'P' ∈ l →
    ∃ g, find l = some g := by
  intro l
  induction l with
  | nil => intro h; simp at h
  | cons c t ih =>
    intro h
    cases hm : matchAt (c :: t) with
    | some g2 => exact ⟨g2, find_cons_some hm⟩
    | none =>
      have hct : c ≠ 'P' := by
        intro hc
        subst hc
        obtain ⟨g0, hg0⟩ := matchAt_P_cons t
        rw [hm] at hg0
        cases hg0
      obtain ⟨g, hg⟩ := ih (by
        rcases List.mem_cons.mp h with h1 | h1
        · exact absurd h1.symm hct
        · exact h1)
      exact ⟨g, by rw [find_cons_none hm]; exact hg⟩

theorem Parse_invalid_iff_find_none (s : String) :
    Parse s = Except.error PError.invalidFormat ↔ find s.data = none := by
  constructor
  · intro h
    cases hf : find s.data with
    | none => rfl
    | some m =>
      exfalso
      unfold Parse at h
      rw [hf] at h
      dsimp only at h
      cases h1 : parseRep m with
      | error e =>
        rw [h1] at h
        simp at h
        exact parseRep_error_ne h1 h
      | ok v1 =>
      cases h2 : parseField m.g3 with
      | error e =>
        rw [h1, h2] at h
        simp at h
        exact parseField_error_ne h2 h
      | ok v2 =>
      cases h3 : parseField m.g4 with
      | error e =>
        rw [h1, h2, h3] at h
        simp at h
        exact parseField_error_ne h3 h
      | ok v3 =>
      cases h4 : parseField m.g5 with
      | error e =>
        rw [h1, h2, h3, h4] at h
        simp at h
        exact parseField_error_ne h4 h
      | ok v4 =>
      cases h5 : parseField m.g7 with
      | error e =>
        rw [h1, h2, h3, h4, h5] at h
        simp at h
        exact parseField_error_ne h5 h
      | ok v5 =>
      cases h6 : parseField m.g8 with
      | error e =>
        rw [h1, h2, h3, h4, h5, h6] at h
        simp at h
        exact parseField_error_ne h6 h
      | ok v6 =>
      cases h7 : parseField m.g9 with
      | error e =>
        rw [h1, h2, h3, h4, h5, h6, h7] at h
        simp at h
        exact parseField_error_ne h7 h
      | ok v7 =>
        rw [h1, h2, h3, h4, h5, h6, h7] at h
        simp at h
  · intro h
    unfold Parse
    rw [h]

/-- C9: Parse returns the "invalid format" error exactly when the input
contains no uppercase `P`: the compiled recognizer is unanchored and
every token except `P` is optional, so for example the garbage-framed
input xPy parses successfully into the all-zero Period with
Repetitions 0 rather than being rejected. -/
theorem c9_invalid_format_iff_no_P :
    (∀ s : String, Parse s = Except.error PError.invalidFormat ↔
      ¬ 'P' ∈ s.data) ∧
    Parse "xPy" = Except.ok ⟨0, 0, 0, 0, 0, 0, 0, 0, false⟩ := by
  refine ⟨?_, rfl⟩
  intro s
  rw [Parse_invalid_iff_find_none]
  constructor
  · intro h hmem
    obtain ⟨g, hg⟩ := find_some_of_memP hmem
    rw [h] at hg
    cases hg
  · intro hmem
    cases hf : find s.data with
    | none => rfl
    | some g => exact absurd (find_some_memP hf) hmem

/-- C9 witness: a concrete input with no P is rejected as invalid
format. -/
theorem c9_invalid_format_iff_no_P_witness :
    Parse "hello" = Except.error PError.invalidFormat :=
  (c9_invalid_format_iff_no_P.1 "hello").mpr (by decide)

/-- Invariant of the stream state machine for a budget of N: while the
goroutine runs, the countdown is positive and emissions so far plus the
countdown stay within N; once it has returned, at most N emissions
happened and the running flag is cleared. -/
def StInv (N : Int) (st : StreamState) : Prop :=
  if st.closed then (st.emitted : Int) ≤ N ∧ st.running = false
  else 0 < st.amount ∧ (st.emitted : Int) + st.amount ≤ N ∧
    st.running = true

theorem streamStep_inv {N : Int} {st : StreamState} (h : StInv N st)
    (ev : StreamEv) : StInv N (streamStep st ev) := by
  unfold StInv at h ⊢
  by_cases hc : st.closed = true
  · unfold streamStep
    rw [if_pos hc] at h ⊢
    rw [if_pos hc]
    exact h
  · rw [if_neg hc] at h
    obtain ⟨h1, h2, h3⟩ := h
    cases ev with
    | tick ready =>
      unfold streamStep
      rw [if_neg hc]
      dsimp only
      rw [if_pos h1]
      by_cases hz : st.amount - 1 = 0
      · rw [if_pos hz]
        dsimp only
        rw [if_pos rfl]
        refine ⟨?_, rfl⟩
        cases ready <;> simp <;> omega
      · rw [if_neg hz]
        dsimp only
        rw [if_neg hc]
        refine ⟨by omega, ?_, h3⟩
        cases ready <;> simp <;> omega
    | done =>
      unfold streamStep
      rw [if_neg hc]
      dsimp only
      rw [if_pos rfl]
      exact ⟨by omega, rfl⟩

theorem runStream_inv {N : Int} : ∀ (evs : List StreamEv)
    {st : StreamState}, StInv N st → StInv N (runStream st evs) := by
  intro evs
  induction evs with
  | nil => intro st h; exact h
  | cons e es ih => intro st h; exact ih (streamStep_inv h e)

/-- C10: starting a notification stream on a Period with
Repetitions = N > 0 yields at most N emissions on the returned channel
before the channel is closed (over every interleaving of ticker fires,
consumer readiness and done signals), and calling Stop after the stream
has terminated sees the cleared running flag and is a no-op. -/
theorem c10_stream_budget (N : Int) (evs : List StreamEv) (h : 0 < N) :
    ((runStream (streamStart N) evs).emitted : Int) ≤ N ∧
    ((runStream (streamStart N) evs).closed = true →
      stopCall (runStream (streamStart N) evs).running = StopEff.noop) := by
  have hinv : StInv N (streamStart N) := by
    unfold StInv streamStart
    simp
    omega
  have hrun := runStream_inv evs hinv
  unfold StInv at hrun
  by_cases hc : (runStream (streamStart N) evs).closed = true
  · rw [if_pos hc] at hrun
    refine ⟨hrun.1, fun _ => ?_⟩
    unfold stopCall
    rw [if_pos hrun.2]
  · rw [if_neg hc] at hrun
    exact ⟨by omega, fun hcc => absurd hcc hc⟩

/-- C10 witness: a budget of 2 with two delivered ticks. -/
theorem c10_stream_budget_witness :
    ((runStream (streamStart 2)
      [StreamEv.tick true, StreamEv.tick true]).emitted : Int) ≤ 2 :=
  (c10_stream_budget 2 [StreamEv.tick true, StreamEv.tick true]
    (by decide)).1
